import Mathlib

/-!
Verification model of the `langchain-chatbot-multiple-PDF` repository
(`WorkingCode_2909/app.py` and `audio_app.py`) against its design
specification of a retrieval-augmented question-answering pipeline.

Text is embedded as `List Char` (a Python `str`).  The session wiring
(`get_pdf_text`, the OK-button handler, `handle_user_input`) is translated
from `app.py`; component internals that the scripts delegate to external
libraries (chunker, embedder, vector index, conversational chain) are
modelled from the specification, as indicated on each definition.
-/

/-- Error raised by the chunker on an invalid configuration
(`overlap >= chunk_size`). -/
inductive ChunkError where
  | ConfigError
deriving DecidableEq, Repr

/-- Modelled from the spec: the character-level sliding-window chunker.
Each chunk takes the next `c` characters; the trailing `o` characters of a
chunk are carried forward as the start of the next chunk, so consecutive
starts are `c - o` apart; the final chunk is whatever remains once the text
is exhausted.  (This realises the boundaries required by the spec's
end-to-end scenario; the separator-based unit packing of the spec reduces
to it when every character is a unit.)  `fuel` bounds the recursion; any
`fuel ≥ length` is enough since each step consumes `c - o ≥ 1` characters. -/
def chunkFromFuel (c o : Nat) : Nat → List Char → List (List Char)
  | 0, s => [s]
  | fuel + 1, s =>
    if s.length ≤ c then [s]
    else s.take c :: chunkFromFuel c o fuel (s.drop (c - o))

/-- Modelled from the spec: the chunker entry point (the text-splitting the
scripts delegate to an external splitter).  Validates the configuration and
fails with `ConfigError` when `overlap ≥ chunk_size`; otherwise produces the
sliding-window chunks. -/
def splitText (c o : Nat) (s : List Char) : Except ChunkError (List (List Char)) :=
  if o < c then .ok (chunkFromFuel c o s.length s) else .error .ConfigError

/-- From `app.py`: `get_chunk_text` splits text with the hardcoded
configuration `chunk_size = 1000`, `chunk_overlap = 200`. -/
def get_chunk_text (text : List Char) : Except ChunkError (List (List Char)) :=
  splitText 1000 200 text

/-- Concatenation of the chunks' non-overlapping portions: the first chunk
whole, every later chunk minus its first `o` (carried-over) characters. -/
def reconstruct (o : Nat) : List (List Char) → List Char
  | [] => []
  | ch :: rest => ch ++ (rest.map (fun x => x.drop o)).flatten

/-- Modelled from the spec: configuration of the pluggable embedding backend
(the scripts delegate embedding to an external instruct-embedding model).
`dim` is the declared output dimension. -/
structure EmbedConfig where
  dim : Nat
deriving DecidableEq, Repr

/-- Modelled from the spec: a deterministic embedder with declared output
dimension `cfg.dim` (a bag-of-characters histogram: coordinate `i` counts the
characters whose code is congruent to `i` modulo the dimension). -/
def embed (cfg : EmbedConfig) (text : List Char) : List ℚ :=
  (List.range cfg.dim).map
    (fun i => ((text.filter (fun ch => ch.toNat % cfg.dim == i)).length : ℚ))

/-- Modelled from the spec: one vector-index entry, an embedding vector with a
back-reference to the text it came from. -/
structure IndexEntry where
  vec : List ℚ
  payload : List Char
deriving DecidableEq, Repr

/-- Squared L2 distance, the index's declared (fixed) distance metric. -/
def l2sq (u v : List ℚ) : ℚ :=
  (List.zipWith (fun a b => (a - b) ^ 2) u v).sum

/-- Ranking relation used by search on (insertion index, payload, score)
triples: strictly smaller distance first, ties broken by smaller insertion
index (insertion order). -/
def rankRel (a b : Nat × List Char × ℚ) : Prop :=
  a.2.2 < b.2.2 ∨ (a.2.2 = b.2.2 ∧ a.1 ≤ b.1)

instance : DecidableRel rankRel := fun a b =>
  decidable_of_iff (a.2.2 < b.2.2 ∨ (a.2.2 = b.2.2 ∧ a.1 ≤ b.1)) Iff.rfl

instance : IsTotal (Nat × List Char × ℚ) rankRel where
  total a b := by
    rcases lt_trichotomy a.2.2 b.2.2 with h | h | h
    · exact Or.inl (Or.inl h)
    · rcases Nat.le_total a.1 b.1 with h1 | h1
      · exact Or.inl (Or.inr ⟨h, h1⟩)
      · exact Or.inr (Or.inr ⟨h.symm, h1⟩)
    · exact Or.inr (Or.inl h)

instance : IsTrans (Nat × List Char × ℚ) rankRel where
  trans a b c hab hbc := by
    rcases hab with h1 | ⟨e1, l1⟩
    · rcases hbc with h2 | ⟨e2, _⟩
      · exact Or.inl (lt_trans h1 h2)
      · exact Or.inl (e2 ▸ h1)
    · rcases hbc with h2 | ⟨e2, l2⟩
      · exact Or.inl (e1 ▸ h2)
      · exact Or.inr ⟨e1.trans e2, le_trans l1 l2⟩

/-- Modelled from the spec: nearest-neighbour search scores every entry
against the query vector, keeping its insertion index, and sorts
(stably, via the tie-breaking relation) best-first. -/
def rankEntries (entries : List IndexEntry) (q : List ℚ) : List (Nat × List Char × ℚ) :=
  List.insertionSort rankRel
    (entries.enum.map (fun p => (p.1, p.2.payload, l2sq q p.2.vec)))

/-- Modelled from the spec: `search` returns the best `k` entries as
(payload, score) pairs, best-first. -/
def search (entries : List IndexEntry) (q : List ℚ) (k : Nat) : List (List Char × ℚ) :=
  ((rankEntries entries q).take k).map (fun x => (x.2.1, x.2.2))

/-- From `app.py` `get_vector_store` (its `FAISS.from_documents` call modelled
from the spec): embed every document text and store vector plus text, in
input order. -/
def get_vector_store (cfg : EmbedConfig) (data : List (List Char)) : List IndexEntry :=
  data.map (fun d => ⟨embed cfg d, d⟩)

/-- Role of a conversation turn. -/
inductive Role where
  | user
  | assistant
deriving DecidableEq, Repr

/-- One conversation turn (a langchain message: role plus content). -/
structure Message where
  role : Role
  content : List Char
deriving DecidableEq, Repr

/-- The conversational retrieval chain object built by
`get_conversation_chain`: it owns the retriever over the vector store and a
`ConversationBufferMemory` holding the recorded turns. -/
structure Chain where
  index : List IndexEntry
  memory : List Message
deriving DecidableEq, Repr

/-- Streamlit session state as used by `app.py`:
`st.session_state.conversation` (`None` until the OK button has built a
chain) and `st.session_state.chat_history` (`None` until the first answered
question). -/
structure AppState where
  conversation : Option Chain
  chat_history : Option (List Message)
deriving DecidableEq, Repr

/-- Errors a question submission can raise: `typeErrorNoneNotCallable` is
Python's `TypeError` from calling the `None` stored in
`st.session_state.conversation`; `upstreamError` is a failure of the hosted
chat-model call propagating out of the chain; `notReadyError` is the spec's
`NotReadyError`, declared so that claims about it can be stated (no code
path produces it). -/
inductive PyError where
  | typeErrorNoneNotCallable
  | upstreamError
  | notReadyError
deriving DecidableEq, Repr

/-- From `app.py` `main`: both session-state slots start as `None`. -/
def initState : AppState := ⟨none, none⟩

/-- Modelled from the spec: the retrieval-augmented prompt — the retrieved
top-`k` chunk texts, the full turn history, then the question. -/
def mkPrompt (cfg : EmbedConfig) (k : Nat) (ch : Chain) (q : List Char) : List Char :=
  ((search ch.index (embed cfg q) k).map (fun r => r.1)).flatten
    ++ (ch.memory.map (fun m => m.content)).flatten ++ q

/-- Modelled from the spec: calling the conversational retrieval chain on a
question.  On success the chat model's answer is returned and both the user
turn and the assistant turn are appended to the chain's memory; if the chat
model fails, the call fails with `upstreamError` and the memory is unchanged
(the attempted user turn is not committed). -/
def chainCall (cfg : EmbedConfig) (k : Nat) (llm : List Char → Option (List Char))
    (q : List Char) (ch : Chain) : Except PyError (List Char × Chain) :=
  match llm (mkPrompt cfg k ch q) with
  | none => .error .upstreamError
  | some ans => .ok (ans, ⟨ch.index, ch.memory ++ [⟨.user, q⟩, ⟨.assistant, ans⟩]⟩)

/-- From `app.py` `handle_user_input`: calls
`st.session_state.conversation({'question': question})` — a `TypeError` when
that slot is still `None` — and stores the response's `chat_history` (the
chain's updated memory) back into the session state. -/
def handle_user_input (cfg : EmbedConfig) (k : Nat)
    (llm : List Char → Option (List Char)) (question : List Char)
    (st : AppState) : Except PyError AppState :=
  match st.conversation with
  | none => .error .typeErrorNoneNotCallable
  | some ch =>
    match chainCall cfg k llm question ch with
    | .error e => .error e
    | .ok (_, ch2) => .ok ⟨some ch2, some ch2.memory⟩

/-- From `app.py` `get_pdf_text`: concatenates the extracted text of every
page of every uploaded file, starting from the empty string.  The per-page
PDF text extraction is an external library, passed in as `extract`. -/
def get_pdf_text {Page : Type} (extract : Page → List Char)
    (pdf_files : List (List Page)) : List Char :=
  pdf_files.foldl (fun text pdf_file => pdf_file.foldl (fun t p => t ++ extract p) text) []

/-- From `app.py` `get_conversation_chain`: builds a chain over the given
vector store with a fresh (empty) `ConversationBufferMemory`. -/
def get_conversation_chain (vector_store : List IndexEntry) : Chain :=
  ⟨vector_store, []⟩

/-- The hardcoded CSV path passed to `CSVLoader` in `app.py`. -/
def csvPath : List Char :=
  "/Users/arfsyed/Documents/Development/Hackathon/input_files/lakmeindia-products.csv".toList

/-- From `app.py` `main`, the OK-button handler: extracts the PDFs' text and
chunks it, loads the CSV rows from the hardcoded path (`fs` models the
filesystem as read by `CSVLoader`, giving the row documents of a path),
builds the vector store from the CSV data — `get_vector_store(data)`, the
chunked PDF text being left unused — and stores a fresh conversation chain
in the session state. -/
def processOK {Page : Type} (cfg : EmbedConfig) (extract : Page → List Char)
    (fs : List Char → List (List Char)) (pdf_files : List (List Page))
    (st : AppState) : AppState :=
  let raw_text := get_pdf_text extract pdf_files
  let text_chunks := get_chunk_text raw_text
  let data := fs csvPath
  let vector_store := get_vector_store cfg data
  { st with conversation := some (get_conversation_chain vector_store) }

theorem chunkFromFuel_ne_nil (c o fuel : Nat) (s : List Char) :
    chunkFromFuel c o fuel s ≠ [] := by
  cases fuel with
  | zero => simp [chunkFromFuel]
  | succ f =>
    simp only [chunkFromFuel]
    split <;> simp

theorem join_drop_chunkFromFuel (c o : Nat) (h : o ≤ c) :
    ∀ (fuel : Nat) (s : List Char),
      ((chunkFromFuel c o fuel s).map (fun x => x.drop o)).flatten = s.drop o := by
  intro fuel
  induction fuel with
  | zero => intro s; simp [chunkFromFuel]
  | succ f ih =>
    intro s
    simp only [chunkFromFuel]
    split
    · simp
    · rename_i hlen
      simp only [List.map_cons, List.flatten_cons, ih]
      rw [List.drop_take, List.drop_drop]
      have h1 : o + (c - o) = c := by omega
      have h2 : c - o + o = c := by omega
      rw [h2]
      calc (s.drop o).take (c - o) ++ s.drop c
          = (s.drop o).take (c - o) ++ (s.drop o).drop (c - o) := by
            rw [List.drop_drop, h1]
        _ = s.drop o := List.take_append_drop _ _

theorem reconstruct_chunkFromFuel (c o : Nat) (h : o ≤ c) :
    ∀ (fuel : Nat) (s : List Char),
      reconstruct o (chunkFromFuel c o fuel s) = s := by
  intro fuel
  cases fuel with
  | zero => intro s; simp [chunkFromFuel, reconstruct]
  | succ f =>
    intro s
    simp only [chunkFromFuel]
    split
    · simp [reconstruct]
    · rename_i hlen
      simp only [reconstruct, join_drop_chunkFromFuel c o h f]
      rw [List.drop_drop]
      have h2 : c - o + o = c := by omega
      rw [h2, List.take_append_drop]

theorem chunkFromFuel_getElem? (c o : Nat) (h : o < c) :
    ∀ (fuel : Nat) (s : List Char), s.length ≤ fuel * (c - o) + c →
      ∀ i : Nat, i < (chunkFromFuel c o fuel s).length →
        (chunkFromFuel c o fuel s)[i]? = some ((s.drop (i * (c - o))).take c) := by
  intro fuel
  induction fuel with
  | zero =>
    intro s hs i hi
    have hi0 : i = 0 := by
      simp only [chunkFromFuel, List.length_singleton] at hi
      omega
    subst hi0
    simp only [chunkFromFuel, List.getElem?_cons_zero, Nat.zero_mul, List.drop_zero]
    rw [List.take_of_length_le (by simpa using hs)]
  | succ f ih =>
    intro s hs i hi
    by_cases hlen : s.length ≤ c
    · have hrec : chunkFromFuel c o (f + 1) s = [s] := by
        simp [chunkFromFuel, hlen]
      rw [hrec] at hi ⊢
      have hi0 : i = 0 := by
        simp only [List.length_singleton] at hi
        omega
      subst hi0
      simp only [List.getElem?_cons_zero, Nat.zero_mul, List.drop_zero]
      rw [List.take_of_length_le hlen]
    · have hrec : chunkFromFuel c o (f + 1) s
          = s.take c :: chunkFromFuel c o f (s.drop (c - o)) := by
        simp [chunkFromFuel, hlen]
      rw [hrec] at hi ⊢
      cases i with
      | zero =>
        simp
      | succ i =>
        have e1 : (f + 1) * (c - o) = f * (c - o) + (c - o) := by ring
        have hs' : (s.drop (c - o)).length ≤ f * (c - o) + c := by
          rw [List.length_drop]
          omega
        have hi' : i < (chunkFromFuel c o f (s.drop (c - o))).length := by
          simp only [List.length_cons] at hi
          omega
        have hih := ih (s.drop (c - o)) hs' i hi'
        rw [List.getElem?_cons_succ, hih, List.drop_drop]
        have e2 : c - o + i * (c - o) = (i + 1) * (c - o) := by ring
        rw [e2]

theorem chunkFromFuel_last (c o : Nat) (h : o < c) :
    ∀ (fuel : Nat) (s : List Char), s.length ≤ fuel * (c - o) + c →
      s.length ≤ ((chunkFromFuel c o fuel s).length - 1) * (c - o) + c := by
  intro fuel
  induction fuel with
  | zero =>
    intro s hs
    simpa [chunkFromFuel] using hs
  | succ f ih =>
    intro s hs
    by_cases hlen : s.length ≤ c
    · simp [chunkFromFuel, hlen]
    · have hrec : chunkFromFuel c o (f + 1) s
          = s.take c :: chunkFromFuel c o f (s.drop (c - o)) := by
        simp [chunkFromFuel, hlen]
      have e1 : (f + 1) * (c - o) = f * (c - o) + (c - o) := by ring
      have hs' : (s.drop (c - o)).length ≤ f * (c - o) + c := by
        rw [List.length_drop]
        omega
      have hne := chunkFromFuel_ne_nil c o f (s.drop (c - o))
      have hpos : 0 < (chunkFromFuel c o f (s.drop (c - o))).length :=
        List.length_pos.mpr hne
      have hih := ih (s.drop (c - o)) hs'
      rw [List.length_drop] at hih
      rw [hrec, List.length_cons, Nat.add_sub_cancel]
      have e2 := Nat.sub_one_mul (chunkFromFuel c o f (s.drop (c - o))).length (c - o)
      have e3 : (c - o) ≤ (chunkFromFuel c o f (s.drop (c - o))).length * (c - o) :=
        Nat.le_mul_of_pos_left (c - o) hpos
      omega

theorem chunkFromFuel_not_last (c o : Nat) (h : o < c) :
    ∀ (fuel : Nat) (s : List Char) (i : Nat),
      i + 1 < (chunkFromFuel c o fuel s).length → i * (c - o) + c < s.length := by
  intro fuel
  induction fuel with
  | zero =>
    intro s i hi
    simp [chunkFromFuel] at hi
  | succ f ih =>
    intro s i hi
    by_cases hlen : s.length ≤ c
    · simp [chunkFromFuel, hlen] at hi
    · have hrec : chunkFromFuel c o (f + 1) s
          = s.take c :: chunkFromFuel c o f (s.drop (c - o)) := by
        simp [chunkFromFuel, hlen]
      rw [hrec, List.length_cons] at hi
      cases i with
      | zero => omega
      | succ i =>
        have hih := ih (s.drop (c - o)) i (by omega)
        rw [List.length_drop] at hih
        have e1 : (i + 1) * (c - o) = i * (c - o) + (c - o) := by ring
        omega

theorem foldl_pages_eq {Page : Type} (extract : Page → List Char) :
    ∀ (pdf_file : List Page) (a : List Char),
      pdf_file.foldl (fun t p => t ++ extract p) a = a ++ (pdf_file.map extract).flatten := by
  intro pdf_file
  induction pdf_file with
  | nil => intro a; simp
  | cons p ps ih => intro a; simp [ih, List.append_assoc]

theorem foldl_files_eq {Page : Type} (extract : Page → List Char) :
    ∀ (pdf_files : List (List Page)) (a : List Char),
      pdf_files.foldl (fun text pdf_file => pdf_file.foldl (fun t p => t ++ extract p) text) a
        = a ++ (pdf_files.map (fun f => (f.map extract).flatten)).flatten := by
  intro pdf_files
  induction pdf_files with
  | nil => intro a; simp
  | cons f fs ih => intro a; simp [foldl_pages_eq, ih, List.append_assoc]

/-- C10: `get_pdf_text` returns the concatenation of the extracted text of
every page of every file, in file order and then page order; for an empty
file list it returns the empty string (and depends on no extraction at
all). -/
theorem c10_get_pdf_text_concat (Page : Type) (extract : Page → List Char)
    (pdf_files : List (List Page)) :
    get_pdf_text extract pdf_files
        = (pdf_files.map (fun f => (f.map extract).flatten)).flatten ∧
      get_pdf_text extract ([] : List (List Page)) = [] := by
  constructor
  · rw [get_pdf_text, foldl_files_eq]
    simp
  · rfl

/-- C7: for every chunk configuration with `overlap ≥ chunk_size`, the
chunker fails with `ConfigError` and produces no chunk list. -/
theorem c7_config_error (c o : Nat) (s : List Char) (h : c ≤ o) :
    splitText c o s = .error ChunkError.ConfigError ∧
      ∀ L, splitText c o s ≠ .ok L := by
  have hnc : ¬o < c := by omega
  constructor
  · simp [splitText, hnc]
  · intro L hL
    simp [splitText, hnc] at hL

/-- Witness for C7 at the concrete configuration
`chunk_size = 3, overlap = 3`. -/
theorem c7_config_error_witness :
    3 ≤ 3 ∧ splitText 3 3 ['a'] = .error ChunkError.ConfigError :=
  ⟨le_refl 3, (c7_config_error 3 3 ['a'] (le_refl 3)).1⟩

/-- C9: for a fixed embedding configuration, `embed` is deterministic (equal
inputs give equal vectors) and its output dimension is the declared constant
`cfg.dim` on every call. -/
theorem c9_embed_deterministic (cfg : EmbedConfig) (t1 t2 : List Char)
    (h : t1 = t2) :
    embed cfg t1 = embed cfg t2 ∧
      (embed cfg t1).length = cfg.dim ∧ (embed cfg t2).length = cfg.dim := by
  subst h
  refine ⟨rfl, ?_, ?_⟩ <;> simp [embed]

/-- Witness for C9 at a concrete configuration and input text. -/
theorem c9_embed_deterministic_witness :
    ['a', 'b'] = ['a', 'b'] ∧
      (embed ⟨3⟩ ['a', 'b']).length = 3 :=
  ⟨rfl, (c9_embed_deterministic ⟨3⟩ ['a', 'b'] ['a', 'b'] rfl).2.1⟩

/-- C4: for every press of the OK button, the vector index is built
exclusively from the documents loaded from the hardcoded CSV path: the
resulting session holds the index built from `fs csvPath`, and the result is
identical for any uploaded PDF files and any page-extraction behaviour. -/
theorem c4_index_ignores_pdfs (Page : Type) (cfg : EmbedConfig)
    (extract1 extract2 : Page → List Char) (fs : List Char → List (List Char))
    (pdfs1 pdfs2 : List (List Page)) (st : AppState) :
    processOK cfg extract1 fs pdfs1 st
        = { st with conversation := some ⟨get_vector_store cfg (fs csvPath), []⟩ } ∧
      processOK cfg extract1 fs pdfs1 st = processOK cfg extract2 fs pdfs2 st := by
  exact ⟨rfl, rfl⟩

/-- C3: every OK-button document-processing action stores a conversation
chain holding exactly the freshly built index and an empty recorded-turn
memory, independently of any previously held index or history. -/
theorem c3_processOK_fresh (Page : Type) (cfg : EmbedConfig)
    (extract : Page → List Char) (fs : List Char → List (List Char))
    (pdfs : List (List Page)) (st : AppState) :
    (processOK cfg extract fs pdfs st).conversation
        = some ⟨get_vector_store cfg (fs csvPath), []⟩ ∧
      (∀ ch, (processOK cfg extract fs pdfs st).conversation = some ch →
        ch.index = get_vector_store cfg (fs csvPath) ∧ ch.memory = []) ∧
      ∀ st2 : AppState, (processOK cfg extract fs pdfs st).conversation
        = (processOK cfg extract fs pdfs st2).conversation := by
  refine ⟨rfl, ?_, fun st2 => rfl⟩
  intro ch hch
  have : (⟨get_vector_store cfg (fs csvPath), []⟩ : Chain) = ch := by
    exact Option.some_injective _ hch
  rw [← this]
  exact ⟨rfl, rfl⟩

/-- C1 counterexample: in the initial session state (before any
document-processing), submitting a question does not fail with the spec's
`NotReadyError`; it fails with Python's `TypeError` from calling the `None`
conversation slot. -/
theorem c1_counterexample :
    handle_user_input ⟨3⟩ 4 (fun _ => some ['o', 'k']) ['q'] initState
        ≠ Except.error PyError.notReadyError ∧
      handle_user_input ⟨3⟩ 4 (fun _ => some ['o', 'k']) ['q'] initState
        = Except.error PyError.typeErrorNoneNotCallable := by
  constructor
  · intro h
    simp [handle_user_input, initState] at h
  · rfl

/-- C1 (amended): submitting a question while no index has been built (the
conversation slot is still `None`) always fails — it is never answered — but
with the `TypeError` of calling `None`, not with `NotReadyError`. -/
theorem c1_ask_before_load_fails (cfg : EmbedConfig) (k : Nat)
    (llm : List Char → Option (List Char)) (q : List Char) (st : AppState)
    (h : st.conversation = none) :
    handle_user_input cfg k llm q st = .error .typeErrorNoneNotCallable ∧
      ∀ st2, handle_user_input cfg k llm q st ≠ .ok st2 := by
  constructor
  · simp [handle_user_input, h]
  · intro st2 hst
    simp [handle_user_input, h] at hst

/-- Witness for the amended C1 at the initial session state. -/
theorem c1_ask_before_load_fails_witness :
    initState.conversation = none ∧
      handle_user_input ⟨3⟩ 4 (fun _ => some ['o', 'k']) ['q'] initState
        = .error PyError.typeErrorNoneNotCallable :=
  ⟨rfl, (c1_ask_before_load_fails ⟨3⟩ 4 (fun _ => some ['o', 'k']) ['q'] initState rfl).1⟩

/-- C2: once a chain is held, a successful question appends exactly the user
turn followed by the assistant turn (two turns) to the recorded history and
commits the updated chain; when the chat-model call fails the question fails
with `upstreamError`, no state is produced, and hence nothing is committed. -/
theorem c2_ask_appends_two_turns (cfg : EmbedConfig) (k : Nat)
    (llm : List Char → Option (List Char)) (q : List Char) (st : AppState)
    (ch : Chain) (h : st.conversation = some ch) :
    (∀ ans, llm (mkPrompt cfg k ch q) = some ans →
        handle_user_input cfg k llm q st
            = .ok ⟨some ⟨ch.index, ch.memory ++ [⟨.user, q⟩, ⟨.assistant, ans⟩]⟩,
                some (ch.memory ++ [⟨.user, q⟩, ⟨.assistant, ans⟩])⟩ ∧
          (ch.memory ++ [Message.mk .user q, Message.mk .assistant ans]).length
            = ch.memory.length + 2) ∧
      (llm (mkPrompt cfg k ch q) = none →
        handle_user_input cfg k llm q st = .error .upstreamError ∧
          ∀ st2, handle_user_input cfg k llm q st ≠ .ok st2) := by
  constructor
  · intro ans hans
    constructor
    · simp [handle_user_input, h, chainCall, hans]
    · simp
  · intro hnone
    constructor
    · simp [handle_user_input, h, chainCall, hnone]
    · intro st2 hst
      simp [handle_user_input, h, chainCall, hnone] at hst

/-- Witness for C2: a session holding an empty chain, an always-succeeding
chat model; the question commits exactly the two new turns. -/
theorem c2_ask_appends_two_turns_witness :
    (⟨some ⟨[], []⟩, none⟩ : AppState).conversation = some ⟨[], []⟩ ∧
      handle_user_input ⟨1⟩ 2 (fun _ => some ['A']) ['q'] ⟨some ⟨[], []⟩, none⟩
        = .ok ⟨some ⟨[], [⟨.user, ['q']⟩, ⟨.assistant, ['A']⟩]⟩,
            some [⟨.user, ['q']⟩, ⟨.assistant, ['A']⟩]⟩ :=
  ⟨rfl,
    ((c2_ask_appends_two_turns ⟨1⟩ 2 (fun _ => some ['A']) ['q']
        ⟨some ⟨[], []⟩, none⟩ ⟨[], []⟩ rfl).1 ['A'] rfl).1⟩

theorem length_rankEntries (entries : List IndexEntry) (q : List ℚ) :
    (rankEntries entries q).length = entries.length := by
  rw [rankEntries, List.length_insertionSort, List.length_map, List.enum_length]

theorem pairwise_rankEntries (entries : List IndexEntry) (q : List ℚ) :
    (rankEntries entries q).Pairwise rankRel :=
  List.sorted_insertionSort rankRel _

/-- C8: for every built index, query vector and `k > 0`, `search` returns
exactly `min k |index|` results (never erroring on small indices), the
returned scores are non-decreasing (best-first under the squared-L2 metric),
and the underlying ranking is pairwise ordered by the tie-breaking relation:
strictly smaller distance first, equal distances resolved by insertion
order. -/
theorem c8_search_min_ordered (entries : List IndexEntry) (q : List ℚ) (k : Nat)
    (hk : 0 < k) :
    (search entries q k).length = min k entries.length ∧
      (search entries q k).Pairwise (fun a b => a.2 ≤ b.2) ∧
      ((rankEntries entries q).take k).Pairwise rankRel := by
  have hp : (rankEntries entries q).Pairwise rankRel := pairwise_rankEntries entries q
  have ht : ((rankEntries entries q).take k).Pairwise rankRel :=
    hp.sublist (List.take_sublist k _)
  refine ⟨?_, ?_, ht⟩
  · rw [search, List.length_map, List.length_take, length_rankEntries]
  · rw [search]
    refine ht.map _ ?_
    intro a b hab
    rcases hab with h | ⟨h, _⟩
    · exact le_of_lt h
    · exact le_of_eq h

/-- Witness for C8 on a two-entry index with `k = 5`: exactly
`min 5 2` results are returned. -/
theorem c8_search_min_ordered_witness :
    0 < 5 ∧
      (search [⟨[(1 : ℚ)], ['a']⟩, ⟨[(0 : ℚ)], ['b']⟩] [(0 : ℚ)] 5).length
        = min 5 2 :=
  ⟨Nat.succ_pos 4,
    (c8_search_min_ordered [⟨[(1 : ℚ)], ['a']⟩, ⟨[(0 : ℚ)], ['b']⟩] [(0 : ℚ)] 5
      (Nat.succ_pos 4)).1⟩

/-- C5: for every text and every valid chunk configuration
(`chunk_size > 0`, `overlap < chunk_size`) the chunker succeeds and, writing
`d = chunk_size - overlap` for the stride: chunk `i` is exactly the
`chunk_size`-character window of the text starting at position `i * d`;
consecutive chunks overlap by exactly `overlap` characters (the last
`overlap` characters of a chunk are the first `overlap` of the next); every
character position of the text lies inside some chunk, with matching
content; and concatenating the chunks' non-overlapping portions
reconstructs the text exactly. -/
theorem c5_chunker_properties (c o : Nat) (s : List Char)
    (hc : 0 < c) (ho : o < c) (L : List (List Char))
    (hL : splitText c o s = .ok L) :
    (∀ i, i < L.length → L[i]? = some ((s.drop (i * (c - o))).take c)) ∧
      (∀ i, i + 1 < L.length → ∃ ch1 ch2, L[i]? = some ch1 ∧ L[i + 1]? = some ch2 ∧
        ch1.length = c ∧ ch1.drop (c - o) = ch2.take o) ∧
      (∀ n, n < s.length → ∃ i ch, L[i]? = some ch ∧ i * (c - o) ≤ n ∧
        n - i * (c - o) < ch.length ∧ ch[n - i * (c - o)]? = s[n]?) ∧
      reconstruct o L = s := by
  have hLe : L = chunkFromFuel c o s.length s := by
    simp only [splitText, if_pos ho] at hL
    exact (Except.ok.injEq _ _ ▸ hL).symm
  subst hLe
  have hd : 0 < c - o := by omega
  have hf : s.length ≤ s.length * (c - o) + c := by
    have h1 : s.length ≤ s.length * (c - o) := Nat.le_mul_of_pos_right s.length hd
    omega
  have hchar := chunkFromFuel_getElem? c o ho s.length s hf
  have hlast := chunkFromFuel_last c o ho s.length s hf
  have hpos : 0 < (chunkFromFuel c o s.length s).length :=
    List.length_pos.mpr (chunkFromFuel_ne_nil c o s.length s)
  refine ⟨hchar, ?_, ?_, reconstruct_chunkFromFuel c o (le_of_lt ho) s.length s⟩
  · intro i hi
    have hni := chunkFromFuel_not_last c o ho s.length s i hi
    refine ⟨(s.drop (i * (c - o))).take c, (s.drop ((i + 1) * (c - o))).take c,
      hchar i (by omega), hchar (i + 1) hi, ?_, ?_⟩
    · rw [List.length_take, List.length_drop]
      omega
    · rw [List.drop_take, List.drop_drop, List.take_take]
      have e1 : c - (c - o) = o := by omega
      have e2 : i * (c - o) + (c - o) = (i + 1) * (c - o) := by ring
      have e3 : min o c = o := Nat.min_eq_left (le_of_lt ho)
      rw [e1, e2, e3]
  · intro n hn
    have hdiv1 : (n / (c - o)) * (c - o) ≤ n := Nat.div_mul_le_self n (c - o)
    by_cases hcase : n / (c - o) < (chunkFromFuel c o s.length s).length
    · refine ⟨n / (c - o), (s.drop ((n / (c - o)) * (c - o))).take c,
        hchar (n / (c - o)) hcase, hdiv1, ?_, ?_⟩
      · have hmod := Nat.mod_add_div n (c - o)
        have hmlt : n % (c - o) < c - o := Nat.mod_lt n hd
        have hcomm : (c - o) * (n / (c - o)) = (n / (c - o)) * (c - o) :=
          Nat.mul_comm _ _
        rw [List.length_take, List.length_drop]
        omega
      · have hmod := Nat.mod_add_div n (c - o)
        have hmlt : n % (c - o) < c - o := Nat.mod_lt n hd
        have hcomm : (c - o) * (n / (c - o)) = (n / (c - o)) * (c - o) :=
          Nat.mul_comm _ _
        rw [List.getElem?_take_of_lt (by omega), List.getElem?_drop]
        congr 1
        omega
    · have hile : (chunkFromFuel c o s.length s).length - 1 ≤ n / (c - o) := by
        omega
      have h4 : ((chunkFromFuel c o s.length s).length - 1) * (c - o)
          ≤ (n / (c - o)) * (c - o) := Nat.mul_le_mul_right _ hile
      refine ⟨(chunkFromFuel c o s.length s).length - 1,
        (s.drop (((chunkFromFuel c o s.length s).length - 1) * (c - o))).take c,
        hchar _ (by omega), by omega, ?_, ?_⟩
      · rw [List.length_take, List.length_drop]
        omega
      · rw [List.getElem?_take_of_lt (by omega), List.getElem?_drop]
        congr 1
        omega

/-- Witness for C5 at `chunk_size = 3`, `overlap = 1` on the five-character
text `abcde`: the chunks are `abc` and `cde`, and the non-overlapping
portions reconstruct the text. -/
theorem c5_chunker_properties_witness :
    (0 < 3 ∧ 1 < 3 ∧
        splitText 3 1 ['a', 'b', 'c', 'd', 'e']
          = .ok [['a', 'b', 'c'], ['c', 'd', 'e']]) ∧
      reconstruct 1 [['a', 'b', 'c'], ['c', 'd', 'e']]
        = ['a', 'b', 'c', 'd', 'e'] :=
  ⟨⟨by decide, by decide, by rfl⟩,
    (c5_chunker_properties 3 1 ['a', 'b', 'c', 'd', 'e'] (by decide) (by decide)
      [['a', 'b', 'c'], ['c', 'd', 'e']] (by rfl)).2.2.2⟩

/-- C6: chunking a 2500-character text with `chunk_size = 1000` and
`overlap = 200` produces exactly 3 chunks with character boundaries
`[0, 1000)`, `[800, 1800)` and `[1600, 2500)`. -/
theorem c6_scenario_2500 (s : List Char) (h : s.length = 2500) :
    splitText 1000 200 s
      = .ok [s.take 1000, (s.drop 800).take 1000, s.drop 1600] := by
  have ho : (200 : Nat) < 1000 := by decide
  have hf : s.length ≤ s.length * (1000 - 200) + 1000 := by
    rw [h]
    omega
  have hchar := chunkFromFuel_getElem? 1000 200 ho s.length s hf
  have hlast := chunkFromFuel_last 1000 200 ho s.length s hf
  have hnl := chunkFromFuel_not_last 1000 200 ho s.length s
  have hpos : 0 < (chunkFromFuel 1000 200 s.length s).length :=
    List.length_pos.mpr (chunkFromFuel_ne_nil 1000 200 s.length s)
  have hlen3 : (chunkFromFuel 1000 200 s.length s).length = 3 := by
    rcases Nat.lt_or_ge (chunkFromFuel 1000 200 s.length s).length 4 with h4 | h4
    · omega
    · have hbig := hnl ((chunkFromFuel 1000 200 s.length s).length - 2) (by omega)
      omega
  simp only [splitText, if_pos ho]
  congr 1
  apply List.ext_getElem?
  intro i
  match i with
  | 0 =>
    rw [hchar 0 (by omega)]
    norm_num
  | 1 =>
    rw [hchar 1 (by omega)]
    norm_num
  | 2 =>
    rw [hchar 2 (by omega)]
    norm_num
    omega
  | (n + 3) =>
    rw [List.getElem?_eq_none (by omega), List.getElem?_eq_none (by simp)]

/-- Witness for C6 on the concrete 2500-character text of all `a`s. -/
theorem c6_scenario_2500_witness :
    (List.replicate 2500 'a').length = 2500 ∧
      splitText 1000 200 (List.replicate 2500 'a')
        = .ok [(List.replicate 2500 'a').take 1000,
            ((List.replicate 2500 'a').drop 800).take 1000,
            (List.replicate 2500 'a').drop 1600] :=
  ⟨List.length_replicate 2500 'a',
    c6_scenario_2500 (List.replicate 2500 'a') (List.length_replicate 2500 'a')⟩
